import Mathlib

/-!
Verification of the clipport clipboard-synchronisation program.

The development shallowly embeds the program's core logic:
* the `CbData` snapshot type and its postcard wire codec, as used by
  `postcard::to_stdvec` in `handle_output` (src/main.rs line 84) and
  `postcard::take_from_bytes::<CbData>` in `handle_input` (src/main.rs
  line 100) — bytes are modelled as `Nat` values below 256, Rust strings
  as their UTF-8 byte sequences;
* one sampling cycle of the Output Loop (`handle_output`, src/main.rs
  lines 71-88);
* one read-and-decode step of the Input Loop (`handle_input`,
  src/main.rs lines 94-127) together with the connection supervisor's
  select in `handle_client` (src/main.rs lines 149-164);
* the clipboard backends of src/clipboard.rs relevant to the claims
  (`WaylandClipboard::get_image` MIME dispatch, lines 77-83, and
  `WaylandClipboard::set_image` validation, lines 110-112).
-/

/-- Decode-side failure conditions of the postcard deserializer, as
distinguished by `handle_input`: `unexpectedEnd` is postcard's
`DeserializeUnexpectedEnd` (more bytes must be read); every other
constructor is fatal to the connection. -/
inductive PError where
  | unexpectedEnd
  | badVarint
  | badUtf8
  | badEnum
deriving DecidableEq

/-- Image payload carried by a clipboard snapshot: mirrors
`arboard::ImageData` as (de)serialized through `ImageDataDef`
(src/main.rs lines 60-66): `width`/`height` are Rust `usize` values and
`bytes` the raw RGBA byte buffer. -/
structure ImageData where
  width : Nat
  height : Nat
  bytes : List Nat
deriving DecidableEq

/-- The clipboard snapshot enum `CbData` of src/main.rs lines 14-18.
`Text` carries the UTF-8 bytes of the Rust `String`. -/
inductive CbData where
  | Text (s : List Nat)
  | Image (img : ImageData)
deriving DecidableEq

/-- Postcard's LEB128 varint serializer loop (`try_push_varint`): emits
7 data bits per byte, most significant bit marks continuation.  The
loop runs at most `fuel` times; with `fuel = 10` this is exact for
every `u64`/`usize` value. -/
def varintEncodeGo : Nat → Nat → List Nat
  | 0, _ => []
  | fuel + 1, x =>
    if x < 128 then [x]
    else (x % 128 + 128) :: varintEncodeGo fuel (x / 128)

/-- Varint encoding of a `u64`/`usize` value (exact for `x < 2 ^ 64`). -/
def varintEncode (x : Nat) : List Nat :=
  varintEncodeGo 10 x

/-- Postcard's varint deserializer loop (`try_take_varint`): reads up
to `fuel` bytes, accumulating 7 bits per byte; the final permitted byte
must not exceed `lastMax`, else `DeserializeBadVarint`; running out of
input is `DeserializeUnexpectedEnd`. -/
def takeVarintGo (lastMax : Nat) : Nat → Nat → Nat → List Nat → Except PError (Nat × List Nat)
  | 0, _, _, _ => .error .badVarint
  | _ + 1, _, _, [] => .error .unexpectedEnd
  | fuel + 1, shift, out, val :: rest =>
    if val < 128 then
      if fuel = 0 ∧ lastMax < val then .error .badVarint
      else .ok (out + val % 128 * 2 ^ shift, rest)
    else takeVarintGo lastMax fuel (shift + 7) (out + val % 128 * 2 ^ shift) rest

/-- Postcard varint reader for `u64`/`usize`: at most 10 bytes, last
byte at most 1. -/
def takeVarintU64 (bs : List Nat) : Except PError (Nat × List Nat) :=
  takeVarintGo 1 10 0 0 bs

/-- Postcard varint reader for `u32` (enum variant tags): at most 5
bytes, last byte at most 15. -/
def takeVarintU32 (bs : List Nat) : Except PError (Nat × List Nat) :=
  takeVarintGo 15 5 0 0 bs

/-- Postcard's `try_take_n`: take exactly `n` bytes from the front of
the buffer, or fail with `DeserializeUnexpectedEnd`. -/
def takeN : Nat → List Nat → Except PError (List Nat × List Nat)
  | 0, bs => .ok ([], bs)
  | _ + 1, [] => .error .unexpectedEnd
  | n + 1, b :: bs =>
    match takeN n bs with
    | .ok (xs, rest) => .ok (b :: xs, rest)
    | .error e => .error e

/-- Continuation byte of a multi-byte UTF-8 sequence (0x80-0xBF). -/
def isCont (b : Nat) : Bool :=
  128 ≤ b && b ≤ 191

/-- UTF-8 validity of a byte sequence, per RFC 3629 as enforced by
Rust's `core::str::from_utf8`, which postcard applies when
deserializing the `String` inside `CbData::Text`. -/
def validUtf8 : List Nat → Bool
  | [] => true
  | b :: rest =>
    if b ≤ 127 then validUtf8 rest
    else if 194 ≤ b && b ≤ 223 then
      match rest with
      | b1 :: r => isCont b1 && validUtf8 r
      | [] => false
    else if b = 224 then
      match rest with
      | b1 :: b2 :: r => (160 ≤ b1 && b1 ≤ 191) && isCont b2 && validUtf8 r
      | _ => false
    else if (225 ≤ b && b ≤ 236) || (238 ≤ b && b ≤ 239) then
      match rest with
      | b1 :: b2 :: r => isCont b1 && isCont b2 && validUtf8 r
      | _ => false
    else if b = 237 then
      match rest with
      | b1 :: b2 :: r => (128 ≤ b1 && b1 ≤ 159) && isCont b2 && validUtf8 r
      | _ => false
    else if b = 240 then
      match rest with
      | b1 :: b2 :: b3 :: r => (144 ≤ b1 && b1 ≤ 191) && isCont b2 && isCont b3 && validUtf8 r
      | _ => false
    else if 241 ≤ b && b ≤ 243 then
      match rest with
      | b1 :: b2 :: b3 :: r => isCont b1 && isCont b2 && isCont b3 && validUtf8 r
      | _ => false
    else if b = 244 then
      match rest with
      | b1 :: b2 :: b3 :: r => (128 ≤ b1 && b1 ≤ 143) && isCont b2 && isCont b3 && validUtf8 r
      | _ => false
    else false

/-- Postcard serialization of `CbData` (`postcard::to_stdvec`):
a varint `u32` variant tag (0 = `Text`, 1 = `Image`) followed by the
variant payload; `String` and the byte buffer are length-prefixed,
`usize` fields are varints. -/
def encodeCbData : CbData → List Nat
  | .Text s => varintEncode 0 ++ varintEncode s.length ++ s
  | .Image img =>
      varintEncode 1 ++ varintEncode img.width ++ varintEncode img.height ++
        varintEncode img.bytes.length ++ img.bytes

/-- Postcard deserialization of `CbData`
(`postcard::take_from_bytes::<CbData>`): reads the variant tag, then
the variant payload, returning the decoded snapshot and the remaining
bytes of the buffer. -/
def decodeCbData (bs : List Nat) : Except PError (CbData × List Nat) :=
  match takeVarintU32 bs with
  | .error e => .error e
  | .ok (tag, r1) =>
    if tag = 0 then
      match takeVarintU64 r1 with
      | .error e => .error e
      | .ok (len, r2) =>
        match takeN len r2 with
        | .error e => .error e
        | .ok (sBytes, r3) =>
          if validUtf8 sBytes then .ok (.Text sBytes, r3) else .error .badUtf8
    else if tag = 1 then
      match takeVarintU64 r1 with
      | .error e => .error e
      | .ok (w, r2) =>
        match takeVarintU64 r2 with
        | .error e => .error e
        | .ok (h, r3) =>
          match takeVarintU64 r3 with
          | .error e => .error e
          | .ok (len, r4) =>
            match takeN len r4 with
            | .error e => .error e
            | .ok (bytes, r5) => .ok (.Image ⟨w, h, bytes⟩, r5)
    else .error .badEnum

/-- Validity of a snapshot as produced by the Rust program: a `String`
is valid UTF-8 and its length a `usize`; image dimensions and buffer
length are `usize` values and the buffer holds bytes. -/
def validCb : CbData → Bool
  | .Text s => validUtf8 s && s.length < 2 ^ 64
  | .Image img =>
      img.width < 2 ^ 64 && img.height < 2 ^ 64 &&
        img.bytes.length < 2 ^ 64 && img.bytes.all (· < 256)

example : encodeCbData (.Text [104, 105]) = [0, 2, 104, 105] := by decide

example : decodeCbData [0, 2, 104, 105] = .ok (.Text [104, 105], []) := rfl

example :
    encodeCbData (.Image ⟨2, 1, [255, 0, 0, 255, 0, 255, 0, 255]⟩) =
      [1, 2, 1, 8, 255, 0, 0, 255, 0, 255, 0, 255] := by decide

example :
    decodeCbData [1, 2, 1, 8, 255, 0, 0, 255, 0, 255, 0, 255] =
      .ok (.Image ⟨2, 1, [255, 0, 0, 255, 0, 255, 0, 255]⟩, []) := rfl

example : decodeCbData [5] = .error .badEnum := rfl

example : decodeCbData [0, 2, 104] = .error .unexpectedEnd := rfl

example : varintEncode 300 = [172, 2] := by decide

example : takeVarintU64 [172, 2, 9] = .ok (300, [9]) := rfl

/-- Result of one attempted pair of clipboard reads, as performed at
the top of each Output Loop cycle and by the Input Loop's duplicate
check: `text` is the result of `clip.get_text()` (`none` when the call
fails), `image` the result of `clip.get_image()`. -/
structure ClipState where
  text : Option (List Nat)
  image : Option ImageData
deriving DecidableEq

/-- The Output Loop's snapshot sampling (src/main.rs lines 73-79):
prefer `get_text`; on failure try `get_image`; if both fail the sample
is `None`. -/
def sample (clip : ClipState) : Option CbData :=
  match clip.text with
  | some t => some (.Text t)
  | none =>
    match clip.image with
    | some img => some (.Image img)
    | none => none

/-- Observable outcome of one Output Loop cycle: the value of
`last_cb_data` when the cycle ends (or when the loop terminates), the
frames fully handed to the stream, and whether the loop continues. -/
structure CycleResult where
  last : Option CbData
  sent : List (List Nat)
  continues : Bool
deriving DecidableEq

/-- One cycle of the Output Loop body (src/main.rs lines 72-87), after
the sleep: sample the clipboard; if the sample differs from
`last_cb_data`, assign `last_cb_data = new_cb_data` (line 81) and, when
the new value is `Some`, write the encoded frame and flush.  `writeOk`
models whether `stream.write_all` succeeds and `flushOk` whether
`stream.flush` succeeds; either failing makes the `?` operator end the
loop. -/
def outputCycle (last : Option CbData) (clip : ClipState) (writeOk flushOk : Bool) :
    CycleResult :=
  let new := sample clip
  if new ≠ last then
    match new with
    | some d =>
      if writeOk then
        if flushOk then ⟨some d, [encodeCbData d], true⟩
        else ⟨some d, [encodeCbData d], false⟩
      else ⟨some d, [], false⟩
    | none => ⟨none, [], true⟩
  else ⟨last, [], true⟩

/-- A write issued to the Clipboard Port by the Input Loop. -/
inductive ClipWrite where
  | writeText (t : List Nat)
  | writeImage (img : ImageData)
deriving DecidableEq

/-- Application of a decoded snapshot to the local clipboard
(src/main.rs lines 112-127): for `Text`, write unless `get_text`
currently returns the same string; for `Image`, write unless
`get_image` currently returns a structurally equal image
(`ImageDataEq` equality: width, height and bytes). -/
def applySnapshot (clip : ClipState) : CbData → List ClipWrite
  | .Text t => if clip.text = some t then [] else [.writeText t]
  | .Image img => if clip.image = some img then [] else [.writeImage img]

/-- Whether the local clipboard currently holds a snapshot structurally
equal to `x`, as tested by the Input Loop's duplicate check. -/
def localEq (clip : ClipState) : CbData → Bool
  | .Text t => clip.text = some t
  | .Image img => clip.image = some img

/-- Outcome of one read-and-decode step of the Input Loop. -/
inductive InputOutcome where
  | cleanShutdown
  | fatal (e : PError)
  | progressed (newBuf : List Nat) (writes : List ClipWrite)
deriving DecidableEq

/-- One step of the Input Loop (src/main.rs lines 94-127): perform one
`read_buf` that appends `chunk` to the decode buffer; a zero-length
read returns `Ok(())` at once (lines 97-99).  Otherwise attempt one
decode of the buffer: `DeserializeUnexpectedEnd` keeps the buffer and
loops back to read more; any other decode error is returned with `?`
and terminates the loop; a decoded frame replaces the buffer with the
remainder and is applied to the clipboard with the duplicate check. -/
def inputStep (buf chunk : List Nat) (clip : ClipState) : InputOutcome :=
  if chunk = [] then .cleanShutdown
  else
    match decodeCbData (buf ++ chunk) with
    | .error .unexpectedEnd => .progressed (buf ++ chunk) []
    | .error e => .fatal e
    | .ok (x, rest) => .progressed rest (applySnapshot clip x)

/-- Clipboard writes performed during one Input Loop step. -/
def stepWrites : InputOutcome → List ClipWrite
  | .progressed _ w => w
  | _ => []

/-- Connection-level outcome after one Input Loop step, per the
`tokio::select!` of `handle_client` (src/main.rs lines 151-160): when
the Input Loop terminates (cleanly or with an error), the select
completes, dropping — cancelling — the sibling Output Loop future. -/
inductive ConnOutcome where
  | running (buf : List Nat) (writes : List ClipWrite)
  | terminated (err : Option PError) (outputCancelled : Bool)
deriving DecidableEq

/-- The connection supervisor's view of one Input Loop step:
termination of the Input Loop terminates the connection and cancels
the Output Loop. -/
def connStep (buf chunk : List Nat) (clip : ClipState) : ConnOutcome :=
  match inputStep buf chunk clip with
  | .cleanShutdown => .terminated none true
  | .fatal e => .terminated (some e) true
  | .progressed b w => .running b w

/-- Image formats the Wayland backend can hand to the image decoder. -/
inductive ImageFormat where
  | png
  | gif
  | webp
  | jpeg
deriving DecidableEq

/-- The MIME dispatch of `WaylandClipboard::get_image`
(src/clipboard.rs lines 77-83): `none` models the
`anyhow::bail!("Unsuported mime ...")` arm, on which `get_image`
fails. -/
def mimeToFormat (mime : String) : Option ImageFormat :=
  if mime = "image/png" then some .png
  else if mime = "image/gif" then some .gif
  else if mime = "image/webp" then some .webp
  else if mime = "image/jpg" ∨ mime = "image/jpeg" then some .jpeg
  else none

/-- Failure modes of the Clipboard Port operations (spec taxonomy §7);
`invalidImage` is the "Empty image" bailout of `set_image`,
`encoding` a PNG-encoder failure. -/
inductive ClipboardError where
  | empty
  | wrongFormat
  | unsupportedFormat
  | invalidImage
  | encoding
deriving DecidableEq

/-- Validation performed by `WaylandClipboard::set_image`
(src/clipboard.rs lines 106-132): bail with the invalid-image error
when the byte buffer is empty or a dimension is zero (lines 110-112);
afterwards the PNG encoder rejects a buffer whose length does not
match an RGBA8 image of the given dimensions; the successful PNG
re-encode and the wl-clipboard copy are abstracted as success. -/
def WaylandClipboard.set_image (data : ImageData) : Except ClipboardError Unit :=
  if data.bytes = [] ∨ data.width = 0 ∨ data.height = 0 then .error .invalidImage
  else if data.bytes.length = data.width * data.height * 4 then .ok ()
  else .error .encoding

/-- Modelled from the spec: the default backend's `set_image` is a
direct call into the `arboard` library (src/clipboard.rs lines 54-56),
whose source is not part of this repository.  Spec §4.1: `write_image`
fails with `ClipboardError::InvalidImage` if width or height is zero
or the byte buffer is empty. -/
def arboardSetImage (data : ImageData) : Except ClipboardError Unit :=
  if data.width = 0 ∨ data.height = 0 ∨ data.bytes = [] then .error .invalidImage
  else .ok ()

example : sample ⟨none, none⟩ = none := by decide

example :
    outputCycle (some (.Text [104])) ⟨none, none⟩ true true = ⟨none, [], true⟩ := by decide

example : inputStep [] [5] ⟨none, none⟩ = .fatal .badEnum := by decide

example : inputStep [0, 1] [] ⟨none, none⟩ = .cleanShutdown := by decide

example :
    inputStep [] [0, 1, 104] ⟨some [104], none⟩ = .progressed [] [] := by decide

example :
    inputStep [] [0, 1, 104] ⟨none, none⟩ =
      .progressed [] [.writeText [104]] := by decide

theorem varintEncode_zero : varintEncode 0 = [0] := rfl

theorem varintEncode_one : varintEncode 1 = [1] := rfl

theorem takeTag0 (R : List Nat) : takeVarintU32 (0 :: R) = .ok (0, R) := rfl

theorem takeTag1 (R : List Nat) : takeVarintU32 (1 :: R) = .ok (1, R) := rfl

/-- The varint deserializer inverts the serializer: reading the
encoding of `x` from the front of a buffer yields `x` (shifted into
the accumulator) and the untouched remainder, provided `x` fits the
width enforced by the reader's fuel and last-byte bound. -/
theorem takeVarintGo_encode (lastMax : Nat) (hl : lastMax < 128) :
    ∀ n shift out x rest, 0 < n → x < 128 ^ (n - 1) * (lastMax + 1) →
      takeVarintGo lastMax n shift out (varintEncodeGo n x ++ rest) =
        .ok (out + x * 2 ^ shift, rest) := by
  intro n
  induction n with
  | zero => intro shift out x rest h _; omega
  | succ m ih =>
    intro shift out x rest _ hx
    by_cases hx128 : x < 128
    · simp only [varintEncodeGo, if_pos hx128, List.cons_append, List.nil_append]
      simp only [takeVarintGo, if_pos hx128]
      have hguard : ¬(m = 0 ∧ lastMax < x) := by
        rintro ⟨hm, hlt⟩
        subst hm
        have hx' : x < lastMax + 1 := by simpa using hx
        omega
      rw [if_neg hguard, Nat.mod_eq_of_lt hx128]
    · have hm : 0 < m := by
        by_contra h0
        have hm0 : m = 0 := by omega
        subst hm0
        have hx' : x < lastMax + 1 := by simpa using hx
        omega
      simp only [varintEncodeGo, if_neg hx128, List.cons_append]
      simp only [takeVarintGo]
      have h128 : ¬(x % 128 + 128 < 128) := by omega
      rw [if_neg h128]
      have hmod : (x % 128 + 128) % 128 = x % 128 := by omega
      have hpow : (128 : Nat) ^ m = 128 ^ (m - 1) * 128 := by
        conv_lhs => rw [show m = (m - 1) + 1 by omega]
        rw [pow_succ]
      have hdiv : x / 128 < 128 ^ (m - 1) * (lastMax + 1) := by
        rw [Nat.div_lt_iff_lt_mul (by norm_num : (0 : Nat) < 128)]
        calc x < 128 ^ m * (lastMax + 1) := hx
          _ = 128 ^ (m - 1) * (lastMax + 1) * 128 := by rw [hpow]; ring
      rw [hmod, ih (shift + 7) (out + x % 128 * 2 ^ shift) (x / 128) rest hm hdiv]
      have h7 : (2 : Nat) ^ 7 = 128 := by norm_num
      have hx' : x % 128 + x / 128 * 128 = x := Nat.mod_add_div' x 128
      have harith : out + x % 128 * 2 ^ shift + x / 128 * 2 ^ (shift + 7) =
          out + x * 2 ^ shift := by
        calc out + x % 128 * 2 ^ shift + x / 128 * 2 ^ (shift + 7)
            = out + (x % 128 + x / 128 * 128) * 2 ^ shift := by rw [pow_add, h7]; ring
          _ = out + x * 2 ^ shift := by rw [hx']
      rw [harith]

/-- Instance of the varint round trip for `u64`/`usize` values. -/
theorem takeVarintU64_encode (x : Nat) (hx : x < 2 ^ 64) (rest : List Nat) :
    takeVarintU64 (varintEncode x ++ rest) = .ok (x, rest) := by
  have hb : x < 128 ^ (10 - 1) * (1 + 1) := by
    have : (128 : Nat) ^ 9 * 2 = 2 ^ 64 := by norm_num
    omega
  have h := takeVarintGo_encode 1 (by norm_num) 10 0 0 x rest (by norm_num) hb
  simpa using h

/-- Reading a varint from a strict prefix of its own encoding runs out
of input. -/
theorem takeVarintGo_encode_trunc (lastMax : Nat) (hl : lastMax < 128) :
    ∀ n shift out x k, 0 < n → x < 128 ^ (n - 1) * (lastMax + 1) →
      k < (varintEncodeGo n x).length →
      takeVarintGo lastMax n shift out ((varintEncodeGo n x).take k) =
        .error .unexpectedEnd := by
  intro n
  induction n with
  | zero => intro shift out x k h _ _; omega
  | succ m ih =>
    intro shift out x k _ hx hk
    by_cases hx128 : x < 128
    · simp only [varintEncodeGo, if_pos hx128, List.length_cons, List.length_nil] at hk
      have hk0 : k = 0 := by omega
      subst hk0
      simp [varintEncodeGo, if_pos hx128, takeVarintGo]
    · have hm : 0 < m := by
        by_contra h0
        have hm0 : m = 0 := by omega
        subst hm0
        have hx' : x < lastMax + 1 := by simpa using hx
        omega
      simp only [varintEncodeGo, if_neg hx128, List.length_cons] at hk ⊢
      cases k with
      | zero => simp [takeVarintGo]
      | succ j =>
        simp only [List.take_succ_cons]
        simp only [takeVarintGo]
        have h128 : ¬(x % 128 + 128 < 128) := by omega
        rw [if_neg h128]
        have hpow : (128 : Nat) ^ m = 128 ^ (m - 1) * 128 := by
          conv_lhs => rw [show m = (m - 1) + 1 by omega]
          rw [pow_succ]
        have hdiv : x / 128 < 128 ^ (m - 1) * (lastMax + 1) := by
          rw [Nat.div_lt_iff_lt_mul (by norm_num : (0 : Nat) < 128)]
          calc x < 128 ^ m * (lastMax + 1) := hx
            _ = 128 ^ (m - 1) * (lastMax + 1) * 128 := by rw [hpow]; ring
        exact ih (shift + 7) _ (x / 128) j hm hdiv (by omega)

/-- Instance of varint truncation for `u64`/`usize` values. -/
theorem takeVarintU64_encode_trunc (x : Nat) (hx : x < 2 ^ 64) (k : Nat)
    (hk : k < (varintEncode x).length) :
    takeVarintU64 ((varintEncode x).take k) = .error .unexpectedEnd := by
  have hb : x < 128 ^ (10 - 1) * (1 + 1) := by
    have : (128 : Nat) ^ 9 * 2 = 2 ^ 64 := by norm_num
    omega
  exact takeVarintGo_encode_trunc 1 (by norm_num) 10 0 0 x k (by norm_num) hb hk

/-- Taking exactly the length of the first segment of a buffer returns
that segment and the rest. -/
theorem takeN_append : ∀ (xs rest : List Nat), takeN xs.length (xs ++ rest) = .ok (xs, rest) := by
  intro xs
  induction xs with
  | nil => intro rest; rfl
  | cons b bs ih =>
    intro rest
    have h : takeN (b :: bs).length ((b :: bs) ++ rest) =
        match takeN bs.length (bs ++ rest) with
        | .ok (xs, r) => .ok (b :: xs, r)
        | .error e => .error e := rfl
    rw [h, ih rest]

/-- Taking more bytes than the buffer holds runs out of input. -/
theorem takeN_short : ∀ (n : Nat) (bs : List Nat), bs.length < n →
    takeN n bs = .error .unexpectedEnd := by
  intro n
  induction n with
  | zero => intro bs h; omega
  | succ m ih =>
    intro bs h
    cases bs with
    | nil => rfl
    | cons b bs' =>
      simp only [takeN]
      rw [ih bs' (by simp only [List.length_cons] at h; omega)]

/-- Decoding inverts encoding even with extra bytes appended: the
decoder consumes exactly one frame and returns the appended bytes as
the remainder. -/
theorem decode_encode_append (v : CbData) (hv : validCb v = true) (rest : List Nat) :
    decodeCbData (encodeCbData v ++ rest) = .ok (v, rest) := by
  cases v with
  | Text s =>
    simp only [validCb, Bool.and_eq_true, decide_eq_true_eq] at hv
    obtain ⟨hutf, hlen⟩ := hv
    have h1 : encodeCbData (.Text s) ++ rest =
        0 :: (varintEncode s.length ++ (s ++ rest)) := by
      simp [encodeCbData, varintEncode_zero]
    rw [h1]
    unfold decodeCbData
    rw [takeTag0]
    simp [takeVarintU64_encode s.length hlen (s ++ rest), takeN_append s rest, hutf]
  | Image img =>
    obtain ⟨w, h, bytes⟩ := img
    simp only [validCb, Bool.and_eq_true, decide_eq_true_eq] at hv
    obtain ⟨⟨⟨hw, hh⟩, hlen⟩, _⟩ := hv
    have h1 : encodeCbData (.Image ⟨w, h, bytes⟩) ++ rest =
        1 :: (varintEncode w ++ (varintEncode h ++
          (varintEncode bytes.length ++ (bytes ++ rest)))) := by
      simp [encodeCbData, varintEncode_one]
    rw [h1]
    unfold decodeCbData
    rw [takeTag1]
    simp [takeVarintU64_encode w hw, takeVarintU64_encode h hh,
      takeVarintU64_encode bytes.length hlen, takeN_append bytes rest]

/-- Decoding any strict prefix of an encoded frame reports
insufficient input (postcard's `DeserializeUnexpectedEnd`), never any
other error. -/
theorem decode_encode_trunc (v : CbData) (hv : validCb v = true) :
    ∀ k, k < (encodeCbData v).length →
      decodeCbData ((encodeCbData v).take k) = .error .unexpectedEnd := by
  cases v with
  | Text s =>
    simp only [validCb, Bool.and_eq_true, decide_eq_true_eq] at hv
    obtain ⟨hutf, hlen⟩ := hv
    intro k hk
    have h1 : encodeCbData (.Text s) = 0 :: (varintEncode s.length ++ s) := by
      simp [encodeCbData, varintEncode_zero]
    rw [h1] at hk ⊢
    simp only [List.length_cons, List.length_append] at hk
    cases k with
    | zero => rfl
    | succ j =>
      rw [List.take_succ_cons]
      unfold decodeCbData
      rw [takeTag0]
      by_cases hj : j < (varintEncode s.length).length
      · rw [List.take_append_of_le_length (by omega)]
        simp [takeVarintU64_encode_trunc s.length hlen j hj]
      · have hj' : j = (varintEncode s.length).length + (j - (varintEncode s.length).length) := by
          omega
        rw [hj', List.take_append]
        have hshort :
            (List.take (j - (varintEncode s.length).length) s).length < s.length := by
          rw [List.length_take]
          omega
        simp [takeVarintU64_encode s.length hlen,
          takeN_short s.length (List.take (j - (varintEncode s.length).length) s) hshort]
  | Image img =>
    obtain ⟨w, h, bytes⟩ := img
    simp only [validCb, Bool.and_eq_true, decide_eq_true_eq] at hv
    obtain ⟨⟨⟨hw, hh⟩, hlen⟩, _⟩ := hv
    intro k hk
    have h1 : encodeCbData (.Image ⟨w, h, bytes⟩) =
        1 :: (varintEncode w ++ (varintEncode h ++ (varintEncode bytes.length ++ bytes))) := by
      simp [encodeCbData, varintEncode_one]
    rw [h1] at hk ⊢
    simp only [List.length_cons, List.length_append] at hk
    cases k with
    | zero => rfl
    | succ j =>
      rw [List.take_succ_cons]
      unfold decodeCbData
      rw [takeTag1]
      by_cases hjw : j < (varintEncode w).length
      · rw [List.take_append_of_le_length (by omega)]
        simp [takeVarintU64_encode_trunc w hw j hjw]
      · have hj1 : j = (varintEncode w).length + (j - (varintEncode w).length) := by omega
        rw [hj1, List.take_append]
        by_cases hjh : j - (varintEncode w).length < (varintEncode h).length
        · rw [List.take_append_of_le_length (by omega)]
          simp [takeVarintU64_encode w hw,
            takeVarintU64_encode_trunc h hh (j - (varintEncode w).length) hjh]
        · have hj2 : j - (varintEncode w).length =
              (varintEncode h).length +
                (j - (varintEncode w).length - (varintEncode h).length) := by omega
          rw [hj2, List.take_append]
          by_cases hjl : j - (varintEncode w).length - (varintEncode h).length <
              (varintEncode bytes.length).length
          · rw [List.take_append_of_le_length (by omega)]
            simp [takeVarintU64_encode w hw, takeVarintU64_encode h hh,
              takeVarintU64_encode_trunc bytes.length hlen _ hjl]
          · have hj3 : j - (varintEncode w).length - (varintEncode h).length =
                (varintEncode bytes.length).length +
                  (j - (varintEncode w).length - (varintEncode h).length -
                    (varintEncode bytes.length).length) := by omega
            rw [hj3, List.take_append]
            have hshort :
                (List.take (j - (varintEncode w).length - (varintEncode h).length -
                  (varintEncode bytes.length).length) bytes).length < bytes.length := by
              rw [List.length_take]
              omega
            simp [takeVarintU64_encode w hw, takeVarintU64_encode h hh,
              takeVarintU64_encode bytes.length hlen,
              takeN_short bytes.length _ hshort]

/-- A successful varint read is unaffected by bytes appended after the
buffer: the same value is returned and the new bytes join the
remainder. -/
theorem takeVarintGo_extend (lastMax : Nat) :
    ∀ n shift out bs x r, takeVarintGo lastMax n shift out bs = .ok (x, r) →
      ∀ e, takeVarintGo lastMax n shift out (bs ++ e) = .ok (x, r ++ e) := by
  intro n
  induction n with
  | zero =>
    intro shift out bs x r hok e
    simp [takeVarintGo] at hok
  | succ m ih =>
    intro shift out bs x r hok e
    cases bs with
    | nil => simp [takeVarintGo] at hok
    | cons val rest =>
      simp only [takeVarintGo, List.cons_append] at hok ⊢
      by_cases hv : val < 128
      · rw [if_pos hv] at hok ⊢
        by_cases hg : m = 0 ∧ lastMax < val
        · rw [if_pos hg] at hok
          exact absurd hok (by simp)
        · rw [if_neg hg] at hok ⊢
          simp only [Except.ok.injEq, Prod.mk.injEq] at hok
          obtain ⟨h1, h2⟩ := hok
          subst h1
          subst h2
          rfl
      · rw [if_neg hv] at hok ⊢
        exact ih _ _ _ _ _ hok e

theorem takeVarintU64_extend {bs : List Nat} {x : Nat} {r : List Nat}
    (hok : takeVarintU64 bs = .ok (x, r)) (e : List Nat) :
    takeVarintU64 (bs ++ e) = .ok (x, r ++ e) :=
  takeVarintGo_extend 1 10 0 0 bs x r hok e

theorem takeVarintU32_extend {bs : List Nat} {x : Nat} {r : List Nat}
    (hok : takeVarintU32 bs = .ok (x, r)) (e : List Nat) :
    takeVarintU32 (bs ++ e) = .ok (x, r ++ e) :=
  takeVarintGo_extend 15 5 0 0 bs x r hok e

/-- A successful `try_take_n` is unaffected by bytes appended after
the buffer. -/
theorem takeN_extend : ∀ (n : Nat) (bs xs r : List Nat),
    takeN n bs = .ok (xs, r) → ∀ e, takeN n (bs ++ e) = .ok (xs, r ++ e) := by
  intro n
  induction n with
  | zero =>
    intro bs xs r hok e
    simp only [takeN, Except.ok.injEq, Prod.mk.injEq] at hok
    obtain ⟨h1, h2⟩ := hok
    subst h1
    subst h2
    rfl
  | succ m ih =>
    intro bs xs r hok e
    cases bs with
    | nil => simp [takeN] at hok
    | cons b bs2 =>
      have hstep : takeN (m + 1) (b :: bs2) =
          match takeN m bs2 with
          | .ok (ys, rr) => .ok (b :: ys, rr)
          | .error e2 => .error e2 := rfl
      rw [hstep] at hok
      cases htn : takeN m bs2 with
      | error e2 =>
        rw [htn] at hok
        simp at hok
      | ok p =>
        obtain ⟨ys, rr⟩ := p
        rw [htn] at hok
        simp only [Except.ok.injEq, Prod.mk.injEq] at hok
        obtain ⟨h1, h2⟩ := hok
        subst h2
        have hstep2 : takeN (m + 1) ((b :: bs2) ++ e) =
            match takeN m (bs2 ++ e) with
            | .ok (ys2, rr2) => .ok (b :: ys2, rr2)
            | .error e2 => .error e2 := rfl
        rw [hstep2, ih bs2 ys rr htn e, ← h1]

/-- A successfully decoded frame is unaffected by bytes arriving after
it in the buffer: the same snapshot is returned and the new bytes join
the remainder. -/
theorem decodeCbData_extend (bs : List Nat) (v : CbData) (r : List Nat)
    (hok : decodeCbData bs = .ok (v, r)) (e : List Nat) :
    decodeCbData (bs ++ e) = .ok (v, r ++ e) := by
  unfold decodeCbData at hok ⊢
  cases h1 : takeVarintU32 bs with
  | error e1 =>
    rw [h1] at hok
    simp at hok
  | ok p =>
    obtain ⟨tag, r1⟩ := p
    rw [h1] at hok
    rw [takeVarintU32_extend h1 e]
    simp only [] at hok ⊢
    by_cases ht0 : tag = 0
    · subst ht0
      simp only [reduceIte] at hok ⊢
      cases h2 : takeVarintU64 r1 with
      | error e2 =>
        rw [h2] at hok
        simp at hok
      | ok q =>
        obtain ⟨len, r2⟩ := q
        rw [h2] at hok
        rw [takeVarintU64_extend h2 e]
        simp only [] at hok ⊢
        cases h3 : takeN len r2 with
        | error e3 =>
          rw [h3] at hok
          simp at hok
        | ok t =>
          obtain ⟨sB, r3⟩ := t
          rw [h3] at hok
          rw [takeN_extend len r2 sB r3 h3 e]
          simp only [] at hok ⊢
          by_cases hu : validUtf8 sB = true
          · rw [if_pos hu] at hok ⊢
            simp only [Except.ok.injEq, Prod.mk.injEq] at hok
            obtain ⟨h4, h5⟩ := hok
            subst h4
            subst h5
            rfl
          · rw [if_neg hu] at hok
            simp at hok
    · by_cases ht1 : tag = 1
      · subst ht1
        simp only [reduceIte] at hok ⊢
        rw [if_neg ht0] at hok ⊢
        cases h2 : takeVarintU64 r1 with
        | error e2 =>
          rw [h2] at hok
          simp at hok
        | ok q =>
          obtain ⟨w, r2⟩ := q
          rw [h2] at hok
          rw [takeVarintU64_extend h2 e]
          simp only [] at hok ⊢
          cases h3 : takeVarintU64 r2 with
          | error e3 =>
            rw [h3] at hok
            simp at hok
          | ok q2 =>
            obtain ⟨hgt, r3⟩ := q2
            rw [h3] at hok
            rw [takeVarintU64_extend h3 e]
            simp only [] at hok ⊢
            cases h4 : takeVarintU64 r3 with
            | error e4 =>
              rw [h4] at hok
              simp at hok
            | ok q3 =>
              obtain ⟨len, r4⟩ := q3
              rw [h4] at hok
              rw [takeVarintU64_extend h4 e]
              simp only [] at hok ⊢
              cases h5 : takeN len r4 with
              | error e5 =>
                rw [h5] at hok
                simp at hok
              | ok t =>
                obtain ⟨bytes, r5⟩ := t
                rw [h5] at hok
                rw [takeN_extend len r4 bytes r5 h5 e]
                simp only [Except.ok.injEq, Prod.mk.injEq] at hok
                obtain ⟨h6, h7⟩ := hok
                subst h6
                subst h7
                rfl
      · rw [if_neg ht0, if_neg ht1] at hok
        simp at hok

/-- C1 counterexample: with `last_sent = Some(Text "h")` and a cycle
in which both clipboard reads fail (fresh sample `None`), the code at
src/main.rs line 81 assigns `last_cb_data = None`: after the cycle
`last_sent` no longer equals `Some(Text "h")`, so the claim that the
cycle leaves `last_sent` unchanged fails (no frame is written, and the
loop does continue). -/
theorem C1_counterexample :
    sample ⟨none, none⟩ = none ∧
    outputCycle (some (.Text [104])) ⟨none, none⟩ true true = ⟨none, [], true⟩ ∧
    (outputCycle (some (.Text [104])) ⟨none, none⟩ true true).last ≠
      some (.Text [104]) := by
  decide

/-- C1 (amended): when both clipboard reads fail in a sampling cycle,
no frame is written and the loop continues, but `last_cb_data` is
assigned the fresh `None` sample, so a previously stored snapshot is
cleared rather than left unchanged. -/
theorem C1_amended (last : Option CbData) (clip : ClipState) (w f : Bool)
    (h : sample clip = none) :
    outputCycle last clip w f = ⟨none, [], true⟩ := by
  by_cases hl : last = none
  · subst hl
    simp [outputCycle, h]
  · have hne : (none : Option CbData) ≠ last := fun heq => hl heq.symm
    simp [outputCycle, h, hne]

/-- C1 amended claim at a concrete state: a stored text snapshot is
cleared by a failed sampling cycle. -/
theorem C1_amended_witness :
    sample ⟨none, none⟩ = none ∧
    outputCycle (some (.Text [104])) ⟨none, none⟩ true true = ⟨none, [], true⟩ :=
  ⟨rfl, C1_amended (some (.Text [104])) ⟨none, none⟩ true true rfl⟩

/-- C2 counterexample: previous `last_sent` is `None`; the clipboard
yields `Text "h"`; the stream write fails.  The loop terminates, but
`last_cb_data` was assigned the new snapshot before the write
(src/main.rs line 81), so at termination it holds `Some(Text "h")`,
not its previous value `None` — refuting "last_sent retains its
previous (stale) value". -/
theorem C2_counterexample :
    sample ⟨some [104], none⟩ = some (.Text [104]) ∧
    outputCycle none ⟨some [104], none⟩ false true =
      ⟨some (.Text [104]), [], false⟩ ∧
    (outputCycle none ⟨some [104], none⟩ false true).last ≠ none := by
  decide

/-- C2 (amended): `last_cb_data` is assigned the new snapshot before
the write; when the write or the flush fails the loop terminates (so
the early update is never observable in a later cycle), with
`last_sent` holding the new snapshot rather than the previous one. -/
theorem C2_amended (last : Option CbData) (clip : ClipState) (d : CbData) (w f : Bool)
    (hs : sample clip = some d) (hne : some d ≠ last) (hfail : w = false ∨ f = false) :
    (outputCycle last clip w f).continues = false ∧
    (outputCycle last clip w f).last = some d := by
  rcases hfail with hw | hf
  · subst hw
    simp [outputCycle, hs, hne]
  · subst hf
    cases w <;> simp [outputCycle, hs, hne]

/-- C2 amended claim at a concrete state: a failed write terminates
the loop with `last_cb_data` holding the new snapshot. -/
theorem C2_amended_witness :
    sample ⟨some [104], none⟩ = some (.Text [104]) ∧
    (some (CbData.Text [104]) : Option CbData) ≠ none ∧
    (outputCycle none ⟨some [104], none⟩ false true).continues = false ∧
    (outputCycle none ⟨some [104], none⟩ false true).last = some (.Text [104]) := by
  refine ⟨rfl, by decide, ?_⟩
  exact C2_amended none ⟨some [104], none⟩ (.Text [104]) false true rfl (by decide)
    (Or.inl rfl)

/-- C3: codec round trip — decoding the encoding of any valid
snapshot (Text or Image) yields exactly that snapshot with an empty
remaining buffer. -/
theorem C3_codec_roundtrip (v : CbData) (hv : validCb v = true) :
    decodeCbData (encodeCbData v) = .ok (v, []) := by
  have h := decode_encode_append v hv []
  simpa using h

/-- C3 at the spec's concrete image: a 2x1 RGBA image round-trips. -/
theorem C3_codec_roundtrip_witness :
    validCb (.Image ⟨2, 1, [255, 0, 0, 255, 0, 255, 0, 255]⟩) = true ∧
    decodeCbData (encodeCbData (.Image ⟨2, 1, [255, 0, 0, 255, 0, 255, 0, 255]⟩)) =
      .ok (.Image ⟨2, 1, [255, 0, 0, 255, 0, 255, 0, 255]⟩, []) :=
  ⟨by decide, C3_codec_roundtrip _ (by decide)⟩

/-- C4: incremental assembly — splitting an encoded frame at any byte
boundary into two reads (the second non-empty, as a zero-length read
would instead end the loop) makes the first decode attempt report
insufficient input (`Incomplete`) and the second, on the concatenated
buffer, return exactly the snapshot with an empty remainder. -/
theorem C4_incremental (v : CbData) (c1 c2 : List Nat) (hv : validCb v = true)
    (hsplit : encodeCbData v = c1 ++ c2) (hc2 : c2 ≠ []) :
    decodeCbData c1 = .error .unexpectedEnd ∧
    decodeCbData (c1 ++ c2) = .ok (v, []) := by
  constructor
  · have hlen : c1.length < (encodeCbData v).length := by
      rw [hsplit, List.length_append]
      cases c2 with
      | nil => exact absurd rfl hc2
      | cons a l =>
        simp only [List.length_cons]
        omega
    have htake : (encodeCbData v).take c1.length = c1 := by
      rw [hsplit, List.take_append_of_le_length (Nat.le_refl _), List.take_length]
    rw [← htake]
    exact decode_encode_trunc v hv c1.length hlen
  · rw [← hsplit]
    have h := decode_encode_append v hv []
    simpa using h

/-- C4 at a concrete split of an encoded text frame. -/
theorem C4_incremental_witness :
    encodeCbData (.Text [104]) = [0, 1] ++ [104] ∧
    decodeCbData [0, 1] = .error .unexpectedEnd ∧
    decodeCbData ([0, 1] ++ [104]) = .ok (.Text [104], []) := by
  refine ⟨by decide, ?_⟩
  exact C4_incremental (.Text [104]) [0, 1] [104] (by decide) (by decide) (by decide)

/-- C5: loop suppression — when the received snapshot is structurally
equal to the current local clipboard content (same variant, identical
string for Text, identical width, height and bytes for Image), the
Input Loop performs no clipboard write for that frame. -/
theorem C5_loop_suppress (buf chunk rest : List Nat) (clip : ClipState) (x : CbData)
    (hc : chunk ≠ []) (hd : decodeCbData (buf ++ chunk) = .ok (x, rest))
    (hm : localEq clip x = true) :
    inputStep buf chunk clip = .progressed rest [] := by
  have happ : applySnapshot clip x = [] := by
    cases x with
    | Text t =>
      simp only [localEq, decide_eq_true_eq] at hm
      simp [applySnapshot, hm]
    | Image img =>
      simp only [localEq, decide_eq_true_eq] at hm
      simp [applySnapshot, hm]
  unfold inputStep
  rw [if_neg hc, hd]
  simp [happ]

/-- C5 at a concrete frame: receiving `Text "h"` while the local
clipboard already holds `"h"` writes nothing. -/
theorem C5_loop_suppress_witness :
    decodeCbData ([] ++ [0, 1, 104]) = .ok (.Text [104], []) ∧
    localEq ⟨some [104], none⟩ (.Text [104]) = true ∧
    inputStep [] [0, 1, 104] ⟨some [104], none⟩ = .progressed [] [] := by
  refine ⟨rfl, by decide, ?_⟩
  exact C5_loop_suppress [] [0, 1, 104] [] ⟨some [104], none⟩ (.Text [104])
    (by decide) rfl (by decide)

/-- C6: malformed input is fatal — when the buffered bytes decode to
an error other than insufficient input, the Input Loop step performs
no clipboard write, returns the error (terminating the loop), and the
connection supervisor's select terminates the connection, cancelling
the sibling Output Loop. -/
theorem C6_malformed_fatal (buf chunk : List Nat) (clip : ClipState) (e : PError)
    (hc : chunk ≠ []) (hd : decodeCbData (buf ++ chunk) = .error e)
    (he : e ≠ .unexpectedEnd) :
    inputStep buf chunk clip = .fatal e ∧
    stepWrites (inputStep buf chunk clip) = [] ∧
    connStep buf chunk clip = .terminated (some e) true := by
  have hstep : inputStep buf chunk clip = .fatal e := by
    unfold inputStep
    rw [if_neg hc, hd]
    cases e with
    | unexpectedEnd => exact absurd rfl he
    | badVarint => rfl
    | badUtf8 => rfl
    | badEnum => rfl
  refine ⟨hstep, ?_, ?_⟩
  · rw [hstep]
    rfl
  · unfold connStep
    rw [hstep]

/-- C6 at a concrete malformed buffer: variant discriminator 5 is out
of range, the step is fatal and no write occurs. -/
theorem C6_malformed_fatal_witness :
    decodeCbData ([] ++ [5]) = .error .badEnum ∧
    inputStep [] [5] ⟨none, none⟩ = .fatal .badEnum ∧
    stepWrites (inputStep [] [5] ⟨none, none⟩) = [] ∧
    connStep [] [5] ⟨none, none⟩ = .terminated (some .badEnum) true := by
  refine ⟨rfl, ?_⟩
  exact C6_malformed_fatal [] [5] ⟨none, none⟩ .badEnum (by decide) rfl (by decide)

/-- C7 counterexample: `"image/jpg"` is a fifth MIME string, distinct
from the four named by the claim, that `WaylandClipboard::get_image`
(src/clipboard.rs line 81) maps to a decodable format (JPEG) instead
of failing with the unsupported-format error. -/
theorem C7_counterexample :
    mimeToFormat "image/jpg" = some .jpeg ∧
    "image/jpg" ≠ "image/png" ∧ "image/jpg" ≠ "image/gif" ∧
    "image/jpg" ≠ "image/webp" ∧ "image/jpg" ≠ "image/jpeg" := by
  refine ⟨by decide, by decide, by decide, by decide, by decide⟩

/-- C7 (amended): `get_image` maps exactly five MIME strings to a
decodable format — `image/png`, `image/gif`, `image/webp`,
`image/jpeg`, and additionally `image/jpg` (also mapped to JPEG) —
and fails with the unsupported-format error for every other MIME
string. -/
theorem C7_amended (m : String) :
    (mimeToFormat m).isSome = true ↔
      m = "image/png" ∨ m = "image/gif" ∨ m = "image/webp" ∨
        m = "image/jpg" ∨ m = "image/jpeg" := by
  unfold mimeToFormat
  split_ifs with h1 h2 h3 h4 <;> simp_all

/-- C8: an image with zero width, zero height or an empty byte buffer
is rejected with the invalid-image error by `write_image` in both
backends: the Wayland backend's explicit guard (src/clipboard.rs lines
110-112), and the default backend per the Clipboard Port contract. -/
theorem C8_invalid_image (data : ImageData)
    (h : data.width = 0 ∨ data.height = 0 ∨ data.bytes = []) :
    WaylandClipboard.set_image data = .error .invalidImage ∧
    arboardSetImage data = .error .invalidImage := by
  constructor
  · unfold WaylandClipboard.set_image
    rw [if_pos (by tauto)]
  · unfold arboardSetImage
    rw [if_pos h]

/-- C8 at a concrete zero-width image. -/
theorem C8_invalid_image_witness :
    ((⟨0, 5, [1, 2, 3, 4]⟩ : ImageData).width = 0 ∨
      (⟨0, 5, [1, 2, 3, 4]⟩ : ImageData).height = 0 ∨
      (⟨0, 5, [1, 2, 3, 4]⟩ : ImageData).bytes = []) ∧
    WaylandClipboard.set_image ⟨0, 5, [1, 2, 3, 4]⟩ = .error .invalidImage ∧
    arboardSetImage ⟨0, 5, [1, 2, 3, 4]⟩ = .error .invalidImage := by
  refine ⟨by decide, ?_⟩
  exact C8_invalid_image ⟨0, 5, [1, 2, 3, 4]⟩ (by decide)

/-- C9: a zero-length stream read makes the Input Loop return
successfully (clean shutdown, not an error) whatever the decode
buffer holds — buffered bytes of a partial frame are silently
discarded, never reported as malformed. -/
theorem C9_clean_eof (buf : List Nat) (clip : ClipState) :
    inputStep buf [] clip = .cleanShutdown := by
  unfold inputStep
  rw [if_pos rfl]

/-- C10: the Input Loop reads from the stream before every decode
attempt — a complete frame already sitting in the decode buffer is
not decoded or applied on a zero-length read (the loop returns
cleanly, discarding it), and is decoded and applied exactly when a
read returns at least one byte, whatever those bytes are. -/
theorem C10_read_before_decode (buf : List Nat) (clip : ClipState) (v : CbData)
    (rest : List Nat) (hd : decodeCbData buf = .ok (v, rest)) :
    inputStep buf [] clip = .cleanShutdown ∧
    ∀ chunk : List Nat, chunk ≠ [] →
      inputStep buf chunk clip = .progressed (rest ++ chunk) (applySnapshot clip v) := by
  constructor
  · unfold inputStep
    rw [if_pos rfl]
  · intro chunk hc
    unfold inputStep
    rw [if_neg hc, decodeCbData_extend buf v rest hd chunk]

/-- C10 at a concrete buffered frame: the buffered `Text "h"` frame is
discarded by a zero-length read, and applied when one more byte
arrives. -/
theorem C10_read_before_decode_witness :
    decodeCbData [0, 1, 104] = .ok (.Text [104], []) ∧
    inputStep [0, 1, 104] [] ⟨none, none⟩ = .cleanShutdown ∧
    inputStep [0, 1, 104] [5] ⟨none, none⟩ =
      .progressed ([] ++ [5]) (applySnapshot ⟨none, none⟩ (.Text [104])) := by
  refine ⟨rfl, ?_, ?_⟩
  · exact (C10_read_before_decode [0, 1, 104] ⟨none, none⟩ (.Text [104]) [] rfl).1
  · exact (C10_read_before_decode [0, 1, 104] ⟨none, none⟩ (.Text [104]) [] rfl).2
      [5] (by decide)
